import Mathlib

set_option maxRecDepth 10000

/-!
Verification of the Kokoro TTS sidecar (`src/server/src/tts/sidecar.py`).

The sidecar is a newline-delimited JSON protocol engine around a text
segmenter and a lazily loaded speech model.  Python strings are modelled as
lists of characters (`Str`), so Python `len` is `List.length` and string
concatenation is `List.append`.  The regex splits
`re.split(r'(?<=[.!?])\s+', text)` and `re.split(r'(?<=[,;:—-])\s+', s)`
are modelled by an explicit boundary scan (`splitGo`): a split point is a
maximal whitespace run whose immediately preceding character belongs to the
separator set; the whitespace run is the dropped delimiter.

The protocol engine's mutable module globals (`_kokoro`, `_sample_rate`) are
modelled by explicit state passing (`GatewayState`), and the external world
(module import, model files on disk, the `kokoro_onnx` synthesis call) by an
environment record (`SidecarEnv`).  Synthesized sample buffers are carried as
opaque payloads: the float32/base64 encoding applied to them is an external
collaborator and is passed through unchanged.
-/

namespace Sidecar

/-- Python strings, modelled as lists of characters (code points). -/
abbrev Str := List Char

/-- Character list of a Lean string literal. -/
def str (s : String) : Str := s.data

/-- ASCII whitespace: the characters matched by the regex class `\s` and
stripped by `str.strip()` on ASCII input (Unicode-only whitespace code
points are not modelled). -/
def isWs (c : Char) : Bool :=
  c == ' ' || c == '\t' || c == '\n' || c == '\r' || c == '\x0b' || c == '\x0c'

/-- `str.strip()`: remove leading and trailing whitespace. -/
def pyStrip (s : Str) : Str :=
  ((s.dropWhile isWs).reverse.dropWhile isWs).reverse

/-- Constant `MIN_CHUNK_SIZE` from the sidecar. -/
def MIN_CHUNK_SIZE : Nat := 20

/-- Constant `MAX_SENTENCE_LENGTH` from the sidecar. -/
def MAX_SENTENCE_LENGTH : Nat := 150

/-- The sentence-ending punctuation class `[.!?]` of `sentence_pattern`. -/
def sentenceSeps : List Char := ['.', '!', '?']

/-- The clause punctuation class `[,;:—-]` of `clause_pattern`. -/
def clauseSeps : List Char := [',', ';', ':', '—', '-']

/-- Whether the last character already read (head of the reversed
accumulator) is in the separator class: the regex lookbehind test. -/
def headSep (seps : List Char) : Str → Bool
  | [] => false
  | p :: _ => seps.contains p

/-- Boundary scan realizing `re.split(r'(?<=[SEPS])\s+', s)`.
`acc` holds the current segment reversed; `skipping` is true while inside
the whitespace run of a match (the dropped delimiter).  A match begins at a
whitespace character whose predecessor is in `seps` and greedily consumes
the whole whitespace run. -/
def splitGo (seps : List Char) : Bool → Str → Str → List Str
  | true, _, [] => [[]]
  | false, acc, [] => [acc.reverse]
  | true, acc, c :: cs =>
    if isWs c then splitGo seps true acc cs
    else splitGo seps false [c] cs
  | false, acc, c :: cs =>
    if isWs c && headSep seps acc then acc.reverse :: splitGo seps true [] cs
    else splitGo seps false (c :: acc) cs

/-- `re.split` on the pattern "whitespace run preceded by a `seps`
character"; the delimiter stays dropped, the punctuation stays attached to
the preceding segment. -/
def reSplitAfterSep (seps : List Char) (s : Str) : List Str :=
  splitGo seps false [] s

/-- One iteration of the clause-accumulation loop of `_split_on_clauses`.
State is `(result, current_chunk)` with `result` reversed (head = most
recently flushed chunk). -/
def clauseStep (st : List Str × Str) (clause0 : Str) : List Str × Str :=
  let clause := pyStrip clause0
  if clause = [] then st
  else if st.2 ≠ [] ∧ MAX_SENTENCE_LENGTH < st.2.length + clause.length + 1 then
    (st.2 :: st.1, clause)
  else if st.2 ≠ [] then (st.1, st.2 ++ ' ' :: clause)
  else (st.1, clause)

/-- The trailing `if current_chunk: result.append(current_chunk)` of
`_split_on_clauses`, and the un-reversal of the accumulator. -/
def clauseFinish (st : List Str × Str) : List Str :=
  (if st.2 ≠ [] then st.2 :: st.1 else st.1).reverse

/-- `_split_on_clauses`: split a long sentence on clause boundaries and
re-accumulate clauses into chunks of at most `MAX_SENTENCE_LENGTH`
characters (a single oversized clause passes through whole). -/
def split_on_clauses (sentence : Str) : List Str :=
  clauseFinish ((reSplitAfterSep clauseSeps sentence).foldl clauseStep ([], []))

/-- The clauses of a sentence as the loop of `_split_on_clauses` sees them:
split on clause boundaries, stripped, empties skipped. -/
def strippedClauses (sentence : Str) : List Str :=
  ((reSplitAfterSep clauseSeps sentence).map pyStrip).filter (fun c => !c.isEmpty)

/-- One iteration of the sentence loop in `chunk_text`.  `chunks` is the
accumulated chunk list reversed (head = Python `chunks[-1]`). -/
def sentenceStep (chunks : List Str) (sentence0 : Str) : List Str :=
  let sentence := pyStrip sentence0
  if sentence = [] then chunks
  else if MAX_SENTENCE_LENGTH < sentence.length then
    (split_on_clauses sentence).reverse ++ chunks
  else
    match chunks with
    | [] => [sentence]
    | prev :: rest =>
      if sentence.length < MIN_CHUNK_SIZE then (prev ++ ' ' :: sentence) :: rest
      else sentence :: prev :: rest

/-- One iteration of `_merge_small_chunks`; `result` is reversed
(head = Python `result[-1]`). -/
def mergeStep (result : List Str) (chunk : Str) : List Str :=
  match result with
  | [] => [chunk]
  | prev :: rest =>
    if chunk.length < MIN_CHUNK_SIZE then (prev ++ ' ' :: chunk) :: rest
    else if prev.length < MIN_CHUNK_SIZE then (prev ++ ' ' :: chunk) :: rest
    else chunk :: prev :: rest

/-- `_merge_small_chunks`: left-to-right pass merging chunks below
`MIN_CHUNK_SIZE` (or following a still-small previous chunk) into the
previous chunk, joined by a single space. -/
def merge_small_chunks (chunks : List Str) : List Str :=
  (chunks.foldl mergeStep []).reverse

/-- `chunk_text`: hybrid sentence + clause segmentation. -/
def chunk_text (text0 : Str) : List Str :=
  if pyStrip text0 = [] then []
  else
    let text := pyStrip text0
    if text.length ≤ MAX_SENTENCE_LENGTH then [text]
    else
      let sentences := reSplitAfterSep sentenceSeps text
      let chunks := (sentences.foldl sentenceStep []).reverse
      merge_small_chunks chunks

/-- Model file name constant. -/
def MODEL_FILENAME : Str := str "kokoro-v1.0.onnx"

/-- Voices file name constant. -/
def VOICES_FILENAME : Str := str "voices-v1.0.bin"

/-- The opaque `Kokoro` handle, holding the paths it was constructed with. -/
structure Kokoro where
  model_path : Str
  voices_path : Str
deriving DecidableEq

/-- The lazily initialized module globals `_kokoro` and `_sample_rate`. -/
structure GatewayState where
  kokoro : Option Kokoro
  sample_rate : Nat
deriving DecidableEq

/-- Initial module state: `_kokoro = None`, `_sample_rate = 24000`. -/
def initState : GatewayState := { kokoro := none, sample_rate := 24000 }

/-- The external world as seen by the sidecar: whether `kokoro_onnx`
imports, the resolved models directory and which artifact files exist in
it, whether the `Kokoro(...)` constructor succeeds, and the synthesis call
`_kokoro.create(chunk, voice, speed)` which either raises (message) or
returns an opaque samples payload together with its sample rate. -/
structure SidecarEnv where
  import_ok : Bool
  models_dir : Str
  model_file_exists : Bool
  voices_file_exists : Bool
  construct_ok : Bool
  create : Str → Str → Str → Except Str (Str × Nat)

/-- Externally observable I/O steps of `load_model`, recorded so that
"returns success immediately without reattempting any file-existence check
or model construction" is statable. -/
inductive LoadEffect
  | check_model_file
  | check_voices_file
  | construct_model
deriving DecidableEq

/-- `load_model`: lazy-load the model.  Returns the Python boolean result,
the updated module state, and the I/O steps performed. -/
def load_model (env : SidecarEnv) (st : GatewayState) :
    Bool × GatewayState × List LoadEffect :=
  match st.kokoro with
  | some _ => (true, st, [])
  | none =>
    if !env.import_ok then (false, st, [])
    else
      let model_path := env.models_dir ++ '/' :: MODEL_FILENAME
      let voices_path := env.models_dir ++ '/' :: VOICES_FILENAME
      if !env.model_file_exists then
        (false, st, [.check_model_file])
      else if !env.voices_file_exists then
        (false, st, [.check_model_file, .check_voices_file])
      else if !env.construct_ok then
        -- `Kokoro(...)` raised; caught by the broad handler, returns False
        (false, st, [.check_model_file, .check_voices_file, .construct_model])
      else
        (true,
         { st with kokoro := some { model_path := model_path, voices_path := voices_path } },
         [.check_model_file, .check_voices_file, .construct_model])

/-- The per-chunk loop of the `generate_chunks` generator: walk the chunk
list with a running index and the `_sample_rate` global, yielding
`(pcm_bytes, index)` pairs until the first synthesis exception (whose
message is returned in the middle component); the float32 `tobytes`
conversion of the opaque samples payload is external and passes through. -/
def generate_chunks_go (env : SidecarEnv) (voice speed : Str) :
    Nat → Nat → List Str → List (Str × Nat) × Option Str × Nat
  | sr, _, [] => ([], none, sr)
  | sr, index, chunk :: rest =>
    match env.create chunk voice speed with
    | .error e => ([], some e, sr)
    | .ok (samples, csr) =>
      let sr1 := if csr ≠ sr then csr else sr
      let pcm_bytes := samples
      let out := generate_chunks_go env voice speed sr1 (index + 1) rest
      ((pcm_bytes, index) :: out.1, out.2)

/-- `generate_chunks`: raises "Model not loaded" when `_kokoro is None`
(surfaced through the failure channel, as the caller's broad `except`
treats it like any other exception), otherwise streams the chunks of
`chunk_text text`. -/
def generate_chunks (env : SidecarEnv) (st : GatewayState)
    (text voice speed : Str) :
    List (Str × Nat) × Option Str × GatewayState :=
  match st.kokoro with
  | none => ([], some (str "Model not loaded"), st)
  | some _ =>
    let chunks := chunk_text text
    let out := generate_chunks_go env voice speed st.sample_rate 0 chunks
    (out.1, out.2.1, { st with sample_rate := out.2.2 })

/-- An incoming request: each field is `some v` when the JSON key is
present with string value `v` and `none` when absent, mirroring
`request.get(key, default)`. -/
structure Request where
  rtype : Option Str
  id : Option Str
  text : Option Str
  voice : Option Str
  speed : Option Str

/-- Outgoing protocol messages. -/
inductive Msg
  | ready (id : Str)
  | audio (id : Str) (chunk : Str) (index : Nat)
  | done (id : Str) (total_chunks : Nat)
  | error (id : Str) (error : Str) (recoverable : Bool)
  | pong (id : Str)
deriving DecidableEq

/-- `handle_generate`: validate, lazily load the model, stream audio
messages per chunk, then a `done` (or a recoverable `error` after the
messages already streamed, when a chunk raised).  `total_chunks` is the
running `index + 1` assignment from the loop.  The base64 encoding of the
opaque payload is external and passes through. -/
def handle_generate (env : SidecarEnv) (st : GatewayState) (req : Request) :
    List Msg × GatewayState :=
  let request_id := req.id.getD (str "unknown")
  let text := req.text.getD []
  let voice := req.voice.getD (str "af_heart")
  let speed := req.speed.getD (str "1.0")
  if text = [] then
    ([.error request_id (str "No text provided") true], st)
  else
    let load := load_model env st
    if !load.1 then
      ([.error request_id (str "Failed to load TTS model") false], load.2.1)
    else
      let gen := generate_chunks env load.2.1 text voice speed
      let audios := gen.1.map (fun p => Msg.audio request_id p.1 p.2)
      let total_chunks := gen.1.foldl (fun _ p => p.2 + 1) 0
      match gen.2.1 with
      | none => (audios ++ [.done request_id total_chunks], gen.2.2)
      | some e => (audios ++ [.error request_id e true], gen.2.2)

/-- `handle_request`: dispatch one parsed request; the boolean is Python's
"True to continue, False to shutdown". -/
def handle_request (env : SidecarEnv) (st : GatewayState) (req : Request) :
    List Msg × GatewayState × Bool :=
  let request_type := req.rtype.getD []
  let request_id := req.id.getD []
  if request_type = str "generate" then
    let out := handle_generate env st req
    (out.1, out.2, true)
  else if request_type = str "ping" then
    ([.pong (if request_id = [] then str "health" else request_id)], st, true)
  else if request_type = str "shutdown" then
    ([], st, false)
  else
    ([.error (if request_id = [] then str "unknown" else request_id)
        (str "Unknown request type: " ++ request_type) true], st, true)

/-- The main read-dispatch loop of `main`, restricted to already-parsed
requests: process requests in order, stopping after a `shutdown`. -/
def run_requests (env : SidecarEnv) (st : GatewayState) :
    List Request → List Msg × GatewayState
  | [] => ([], st)
  | req :: rest =>
    let out := handle_request env st req
    if out.2.2 then
      let tail := run_requests env out.2.1 rest
      (out.1 ++ tail.1, tail.2)
    else (out.1, out.2.1)

/-- Tokenizer: walk the string accumulating the current word reversed in
`cur`; whitespace flushes the word.  `tokens s` below is the list of
maximal non-whitespace runs of `s` — the whitespace-separated tokens. -/
def tokensGo : Str → Str → List Str
  | cur, [] => if cur = [] then [] else [cur.reverse]
  | cur, c :: cs =>
    if isWs c then
      if cur = [] then tokensGo [] cs else cur.reverse :: tokensGo [] cs
    else tokensGo (c :: cur) cs

/-- The whitespace-separated tokens of a string. -/
def tokens (s : Str) : List Str := tokensGo [] s

/-- Tokens of a list of strings, concatenated in order. -/
def tokensFlat (l : List Str) : List Str := (l.map tokens).flatten

/-- Join a list of chunks with a single space between consecutive chunks. -/
def joinSp : List Str → Str
  | [] => []
  | [p] => p
  | p :: ps => p ++ ' ' :: joinSp ps

/-- Whether the external synthesis call succeeded. -/
def exceptOk : Except Str (Str × Nat) → Bool
  | .ok _ => true
  | .error _ => false

/-- The samples payload of a successful synthesis call (junk on failure). -/
def createPayload (env : SidecarEnv) (voice speed chunk : Str) : Str :=
  match env.create chunk voice speed with
  | .ok p => p.1
  | .error _ => []

/-- A fully healthy environment whose synthesis always returns `"PCM"`. -/
def envAllOk : SidecarEnv :=
  { import_ok := true
    models_dir := str "/models"
    model_file_exists := true
    voices_file_exists := true
    construct_ok := true
    create := fun _ _ _ => .ok (str "PCM", 24000) }

/-- A healthy environment whose synthesis always raises `"boom"`. -/
def envSynthFails : SidecarEnv :=
  { envAllOk with create := fun _ _ _ => .error (str "boom") }

/-- An environment with the model artifact file absent. -/
def envNoModelFile : SidecarEnv :=
  { envAllOk with model_file_exists := false }

/-- A ping request with id `"h1"`. -/
def pingH1 : Request :=
  { rtype := some (str "ping"), id := some (str "h1")
    text := none, voice := none, speed := none }

/-- A ping request whose `id` field is present but holds the empty string. -/
def pingEmptyId : Request :=
  { rtype := some (str "ping"), id := some []
    text := none, voice := none, speed := none }

/-- A generate request with id `"r1"` and text `"Hello world."`. -/
def genHello : Request :=
  { rtype := some (str "generate"), id := some (str "r1")
    text := some (str "Hello world."), voice := none, speed := none }

/-- A generate request with id `"r1"` and empty text. -/
def genEmptyText : Request :=
  { rtype := some (str "generate"), id := some (str "r1")
    text := some [], voice := none, speed := none }

/-- A generate request with id `"r1"` and whitespace-only text. -/
def genSpaces : Request :=
  { rtype := some (str "generate"), id := some (str "r1")
    text := some (str "   "), voice := none, speed := none }

/-- Two 90-character sentences: a 181-character text that chunks into two
chunks of 90 characters each, the second starting with `'b'`. -/
def twoSentences : Str :=
  (List.replicate 89 'a' ++ str ". ") ++ (List.replicate 89 'b' ++ str ".")

/-- A healthy environment whose synthesis fails exactly on chunks starting
with `'b'`. -/
def envSynthAB : SidecarEnv :=
  { envAllOk with
    create := fun c _ _ =>
      if c.head? = some 'b' then .error (str "boom")
      else .ok (str "PCM", 24000) }

/-- A generate request with id `"r2"` for `twoSentences`. -/
def genTwo : Request :=
  { rtype := some (str "generate"), id := some (str "r2")
    text := some twoSentences, voice := none, speed := none }

/-- A 154-character text: a 150-character first sentence containing a
clause boundary, followed by the 3-character sentence `"Hi."`. -/
def badText : Str :=
  str "Aaa, " ++ List.replicate 144 'a' ++ str ". Hi."

/-- 160 identical characters: a single clause longer than
`MAX_SENTENCE_LENGTH` with no clause boundary. -/
def longClause : Str := List.replicate 160 'a'

theorem load_model_cached (env : SidecarEnv) (st : GatewayState) (k : Kokoro)
    (h : st.kokoro = some k) : load_model env st = (true, st, []) := by
  simp [load_model, h]

theorem load_model_success_kokoro (env : SidecarEnv) (st : GatewayState)
    (h : (load_model env st).1 = true) :
    ∃ k, (load_model env st).2.1.kokoro = some k := by
  cases hk : st.kokoro with
  | some k => simp [load_model, hk]
  | none =>
    simp only [load_model, hk] at h ⊢
    split_ifs at h ⊢ with h1 h2 h3 h4
    all_goals simp_all

theorem generate_chunks_kokoro (env : SidecarEnv) (st : GatewayState)
    (t v s : Str) : ((generate_chunks env st t v s).2.2).kokoro = st.kokoro := by
  cases hk : st.kokoro
  · simp [generate_chunks, hk]
  · simp [generate_chunks, hk]

theorem handle_generate_kokoro (env : SidecarEnv) (st : GatewayState)
    (req : Request) (k : Kokoro) (h : st.kokoro = some k) :
    ((handle_generate env st req).2).kokoro = some k := by
  simp only [handle_generate, load_model_cached env st k h]
  split
  · exact h
  · simp only [Bool.not_true, Bool.false_eq_true, if_false]
    split
    · rw [generate_chunks_kokoro, h]
    · rw [generate_chunks_kokoro, h]

theorem handle_request_kokoro (env : SidecarEnv) (st : GatewayState)
    (req : Request) (k : Kokoro) (h : st.kokoro = some k) :
    ((handle_request env st req).2.1).kokoro = some k := by
  simp only [handle_request]
  split_ifs <;> first
    | exact handle_generate_kokoro env st req k h
    | exact h

theorem run_requests_kokoro (env : SidecarEnv) (st : GatewayState)
    (reqs : List Request) (k : Kokoro) (h : st.kokoro = some k) :
    ((run_requests env st reqs).2).kokoro = some k := by
  induction reqs generalizing st with
  | nil => exact h
  | cons r rest ih =>
    simp only [run_requests]
    split
    · exact ih _ (handle_request_kokoro env st r k h)
    · exact handle_request_kokoro env st r k h

/-- C9: once a `load_model` call has succeeded (caching the handle), every
subsequent `load_model` call — under any environment, even one where the
artifact files have disappeared — returns success immediately with no
file-existence check and no model construction (empty effect list) and
leaves the state untouched; and no later request processing ever replaces
the cached handle. -/
theorem load_model_idempotent_after_success (env : SidecarEnv)
    (st : GatewayState) (h : (load_model env st).1 = true) :
    (∀ env2, load_model env2 (load_model env st).2.1 =
      (true, (load_model env st).2.1, [])) ∧
    ∀ env2 reqs, ((run_requests env2 (load_model env st).2.1 reqs).2).kokoro =
      ((load_model env st).2.1).kokoro := by
  obtain ⟨k, hk⟩ := load_model_success_kokoro env st h
  refine ⟨fun env2 => load_model_cached env2 _ k hk, fun env2 reqs => ?_⟩
  rw [run_requests_kokoro env2 _ reqs k hk, hk]

theorem load_model_idempotent_after_success_witness :
    (load_model envAllOk initState).1 = true ∧
    load_model envNoModelFile (load_model envAllOk initState).2.1 =
      (true, (load_model envAllOk initState).2.1, []) ∧
    ((run_requests envNoModelFile (load_model envAllOk initState).2.1
        [pingH1]).2).kokoro = ((load_model envAllOk initState).2.1).kokoro :=
  ⟨rfl,
   (load_model_idempotent_after_success envAllOk initState rfl).1 envNoModelFile,
   (load_model_idempotent_after_success envAllOk initState rfl).2 envNoModelFile
     [pingH1]⟩

/-- C5 counterexample: for a ping whose `id` field is present but holds the
empty string, the engine answers with the health sentinel id, not with the
incoming id — `request_id or "health"` tests truthiness, not presence. -/
theorem ping_present_empty_id_cex :
    pingEmptyId.id = some [] ∧
    handle_request envAllOk initState pingEmptyId =
      ([Msg.pong (str "health")], initState, true) ∧
    str "health" ≠ ([] : Str) := by
  refine ⟨rfl, ?_, by decide⟩
  decide

/-- C5 (amended): each ping yields exactly one pong as the whole response,
carrying the incoming id when it is present and non-empty and the fixed
health sentinel id otherwise (absent or empty id); processing continues in
the ready loop with the state untouched. -/
theorem ping_single_pong (env : SidecarEnv) (st : GatewayState)
    (req : Request) (h : req.rtype = some (str "ping")) :
    handle_request env st req =
      ([Msg.pong (if req.id.getD [] = [] then str "health"
          else req.id.getD [])], st, true) := by
  simp +decide [handle_request, h]

theorem ping_single_pong_witness :
    handle_request envAllOk initState pingH1 =
      ([Msg.pong (if pingH1.id.getD [] = [] then str "health"
          else pingH1.id.getD [])], initState, true) :=
  ping_single_pong envAllOk initState pingH1 rfl

/-- C6: a generate request whose text is empty yields exactly one error
message, recoverable, carrying the request's id — no audio, no done — and
the loop continues. -/
theorem generate_empty_text_single_error (env : SidecarEnv)
    (st : GatewayState) (req : Request) (i : Str)
    (hg : req.rtype = some (str "generate")) (hid : req.id = some i)
    (htext : req.text.getD [] = []) :
    handle_request env st req =
      ([Msg.error i (str "No text provided") true], st, true) := by
  simp +decide [handle_request, handle_generate, hg, hid, htext]

theorem generate_empty_text_single_error_witness :
    handle_request envAllOk initState genEmptyText =
      ([Msg.error (str "r1") (str "No text provided") true], initState, true) :=
  generate_empty_text_single_error envAllOk initState genEmptyText
    (str "r1") rfl rfl rfl

/-- C7: a generate request (non-empty text) processed while the model load
fails yields exactly one error with `recoverable = false` carrying the
request's id — no audio, no done — and the session stays alive: a
subsequent ping is still answered with its pong. -/
theorem generate_load_failure_session_alive (env : SidecarEnv)
    (st : GatewayState) (req ping : Request) (i j : Str)
    (hg : req.rtype = some (str "generate")) (hi : req.id = some i)
    (htext : req.text.getD [] ≠ [])
    (hload : (load_model env st).1 = false)
    (hp : ping.rtype = some (str "ping")) (hj : ping.id = some j)
    (hjne : j ≠ []) :
    (run_requests env st [req, ping]).1 =
      [Msg.error i (str "Failed to load TTS model") false, Msg.pong j] := by
  simp +decide [run_requests, handle_request, handle_generate, hg, hi, htext,
    hload, hp, hj, hjne]

theorem generate_load_failure_session_alive_witness :
    (run_requests envNoModelFile initState [genHello, pingH1]).1 =
      [Msg.error (str "r1") (str "Failed to load TTS model") false,
       Msg.pong (str "h1")] :=
  generate_load_failure_session_alive envNoModelFile initState genHello
    pingH1 (str "r1") (str "h1") rfl rfl (by decide) rfl rfl rfl (by decide)

theorem pyStrip_eq_nil_of_ws (t : Str) (h : ∀ c ∈ t, isWs c) :
    pyStrip t = [] := by
  simp only [pyStrip, List.dropWhile_eq_nil_iff.mpr h]
  rfl

/-- C10: a generate request whose text is non-empty but all whitespace
passes the empty-text validation; when the model load succeeds the engine
emits no audio and exactly one `done` with `total_chunks = 0`, carrying the
request's id. -/
theorem generate_ws_only_done_zero (env : SidecarEnv) (st : GatewayState)
    (req : Request) (i t : Str)
    (hg : req.rtype = some (str "generate")) (hi : req.id = some i)
    (ht : req.text = some t) (hne : t ≠ []) (hws : ∀ c ∈ t, isWs c)
    (hload : (load_model env st).1 = true) :
    (handle_request env st req).1 = [Msg.done i 0] := by
  obtain ⟨k, hk⟩ := load_model_success_kokoro env st hload
  have hchunks : chunk_text t = [] := by
    simp [chunk_text, pyStrip_eq_nil_of_ws t hws]
  simp +decide [handle_request, handle_generate, hg, hi, ht, hne, hload,
    generate_chunks, hk, hchunks, generate_chunks_go]

theorem generate_ws_only_done_zero_witness :
    (handle_request envAllOk initState genSpaces).1 = [Msg.done (str "r1") 0] :=
  generate_ws_only_done_zero envAllOk initState genSpaces (str "r1")
    (str "   ") rfl rfl rfl (by decide) (by decide) rfl

theorem generate_chunks_go_all_ok (env : SidecarEnv) (voice speed : Str)
    (cs : List Str) : ∀ (sr i : Nat),
    (∀ c ∈ cs, exceptOk (env.create c voice speed) = true) →
    ∃ srF, generate_chunks_go env voice speed sr i cs =
      ((cs.enumFrom i).map (fun q => (createPayload env voice speed q.2, q.1)),
       none, srF) := by
  induction cs with
  | nil => intro sr i _; exact ⟨sr, rfl⟩
  | cons c rest ih =>
    intro sr i h
    cases hc : env.create c voice speed with
    | error e =>
      have := h c (List.mem_cons_self c rest)
      rw [hc] at this
      simp [exceptOk] at this
    | ok p =>
      obtain ⟨srF, hrest⟩ :=
        ih (if p.2 ≠ sr then p.2 else sr) (i + 1)
          (fun cc hcc => h cc (List.mem_cons_of_mem c hcc))
      refine ⟨srF, ?_⟩
      simp only [generate_chunks_go, hc, hrest, List.enumFrom, List.map_cons,
        createPayload]

theorem generate_chunks_go_fail (env : SidecarEnv) (voice speed : Str)
    (pre : List Str) (c : Str) (post : List Str) (e : Str) :
    ∀ (sr i : Nat),
    (∀ cc ∈ pre, exceptOk (env.create cc voice speed) = true) →
    env.create c voice speed = .error e →
    ∃ srF, generate_chunks_go env voice speed sr i (pre ++ c :: post) =
      ((pre.enumFrom i).map (fun q => (createPayload env voice speed q.2, q.1)),
       some e, srF) := by
  induction pre with
  | nil =>
    intro sr i _ hfail
    refine ⟨sr, ?_⟩
    simp [generate_chunks_go, hfail]
  | cons cc rest ih =>
    intro sr i h hfail
    cases hc : env.create cc voice speed with
    | error e2 =>
      have := h cc (List.mem_cons_self cc rest)
      rw [hc] at this
      simp [exceptOk] at this
    | ok p =>
      obtain ⟨srF, hrest⟩ :=
        ih (if p.2 ≠ sr then p.2 else sr) (i + 1)
          (fun x hx => h x (List.mem_cons_of_mem cc hx)) hfail
      refine ⟨srF, ?_⟩
      have hstep : (cc :: rest) ++ c :: post = cc :: (rest ++ c :: post) := rfl
      rw [hstep]
      simp only [generate_chunks_go, hc]
      rw [hrest]
      simp [List.enumFrom, createPayload, hc]

theorem total_chunks_fold (g : Str → Str) (cs : List Str) : ∀ (i a : Nat),
    (((cs.enumFrom i).map (fun q => (g q.2, q.1))).foldl
      (fun _ p => p.2 + 1) a) = if cs = [] then a else i + cs.length := by
  induction cs with
  | nil => intro i a; rfl
  | cons c rest ih =>
    intro i a
    simp only [List.enumFrom, List.map_cons, List.foldl_cons, ih (i + 1)]
    cases rest with
    | nil => simp
    | cons d rest2 => simp [Nat.add_comm, Nat.add_assoc, Nat.add_left_comm]

theorem chunk_text_nil : chunk_text [] = [] := by decide

/-- C1: a generate request whose text chunks into `N ≥ 1` chunks, processed
with the model loaded and every chunk's synthesis succeeding, emits exactly
the `N` audio messages carrying the request's id with indices `0..N-1` in
increasing order, followed by exactly one `done` message with
`total_chunks = N`, and no error message. -/
theorem generate_success_stream (env : SidecarEnv) (st : GatewayState)
    (req : Request) (i : Str)
    (hg : req.rtype = some (str "generate")) (hi : req.id = some i)
    (hload : (load_model env st).1 = true)
    (hchunks : chunk_text (req.text.getD []) ≠ [])
    (hsynth : ∀ c ∈ chunk_text (req.text.getD []),
      exceptOk (env.create c (req.voice.getD (str "af_heart"))
        (req.speed.getD (str "1.0"))) = true) :
    (handle_request env st req).1 =
      ((chunk_text (req.text.getD [])).enum.map (fun q =>
        Msg.audio i (createPayload env (req.voice.getD (str "af_heart"))
          (req.speed.getD (str "1.0")) q.2) q.1))
      ++ [Msg.done i (chunk_text (req.text.getD [])).length] := by
  have htext : req.text.getD [] ≠ [] := by
    intro h
    rw [h, chunk_text_nil] at hchunks
    exact hchunks rfl
  obtain ⟨k, hk⟩ := load_model_success_kokoro env st hload
  obtain ⟨srF, hgo⟩ := generate_chunks_go_all_ok env
    (req.voice.getD (str "af_heart")) (req.speed.getD (str "1.0"))
    (chunk_text (req.text.getD []))
    ((load_model env st).2.1).sample_rate 0 hsynth
  simp only [handle_request, hg, reduceIte, handle_generate, hi, Option.getD_some]
  rw [if_neg htext]
  simp only [hload, Bool.not_true, Bool.false_eq_true, if_false, generate_chunks]
  rw [hk]
  simp only [hgo, total_chunks_fold, if_neg hchunks, List.length_nil,
    Nat.zero_add, List.map_map, List.enum_eq_enumFrom]
  rfl

theorem generate_success_stream_witness :
    (handle_request envAllOk initState genHello).1 =
      [Msg.audio (str "r1") (str "PCM") 0, Msg.done (str "r1") 1] :=
  (generate_success_stream envAllOk initState genHello (str "r1")
    rfl rfl rfl (by decide) (by decide)).trans (by decide)

/-- C8: when, after a successful load, synthesis fails at chunk index `k`
(`k = pre.length`), the engine emits the audio messages for indices
`0..k-1` unchanged, then exactly one recoverable error message carrying the
request's id with the raised message, and no audio for indices `≥ k` and no
done message. -/
theorem generate_chunk_failure_aborts (env : SidecarEnv) (st : GatewayState)
    (req : Request) (i : Str) (pre : List Str) (c : Str) (post : List Str)
    (e : Str)
    (hg : req.rtype = some (str "generate")) (hi : req.id = some i)
    (hload : (load_model env st).1 = true)
    (hsplit : chunk_text (req.text.getD []) = pre ++ c :: post)
    (hpre : ∀ cc ∈ pre, exceptOk (env.create cc
      (req.voice.getD (str "af_heart")) (req.speed.getD (str "1.0"))) = true)
    (hfail : env.create c (req.voice.getD (str "af_heart"))
      (req.speed.getD (str "1.0")) = .error e) :
    (handle_request env st req).1 =
      (pre.enum.map (fun q =>
        Msg.audio i (createPayload env (req.voice.getD (str "af_heart"))
          (req.speed.getD (str "1.0")) q.2) q.1))
      ++ [Msg.error i e true] := by
  have htext : req.text.getD [] ≠ [] := by
    intro h
    rw [h, chunk_text_nil] at hsplit
    exact List.not_mem_nil c (hsplit ▸ List.mem_append_right pre (List.mem_cons_self c post))
  obtain ⟨k, hk⟩ := load_model_success_kokoro env st hload
  obtain ⟨srF, hgo⟩ := generate_chunks_go_fail env
    (req.voice.getD (str "af_heart")) (req.speed.getD (str "1.0"))
    pre c post e ((load_model env st).2.1).sample_rate 0 hpre hfail
  simp only [handle_request, hg, reduceIte, handle_generate, hi, Option.getD_some]
  rw [if_neg htext]
  simp only [hload, Bool.not_true, Bool.false_eq_true, if_false, generate_chunks]
  rw [hk, hsplit]
  simp only [hgo, List.map_map, List.enum_eq_enumFrom]
  rfl

theorem generate_chunk_failure_aborts_witness :
    (handle_request envSynthAB initState genTwo).1 =
      [Msg.audio (str "r2") (str "PCM") 0, Msg.error (str "r2") (str "boom") true] :=
  (generate_chunk_failure_aborts envSynthAB initState genTwo (str "r2")
    [List.replicate 89 'a' ++ str "."] (List.replicate 89 'b' ++ str ".") []
    (str "boom") rfl rfl rfl (by decide) (by decide) rfl).trans
    (by decide)

theorem mergeStep_min (r : List Str) (a : Str)
    (h : 2 ≤ r.length → ∀ c ∈ r, MIN_CHUNK_SIZE ≤ c.length) :
    2 ≤ (mergeStep r a).length →
    ∀ c ∈ mergeStep r a, MIN_CHUNK_SIZE ≤ c.length := by
  cases r with
  | nil =>
    intro h2
    simp [mergeStep] at h2
  | cons prev rest =>
    by_cases ha : a.length < MIN_CHUNK_SIZE
    · intro h2 c hc
      simp only [mergeStep, if_pos ha] at h2 hc
      have hall := h (by simpa using h2)
      rcases List.mem_cons.mp hc with hc | hc
      · subst hc
        have hp := hall prev (List.mem_cons_self prev rest)
        calc MIN_CHUNK_SIZE ≤ prev.length := hp
          _ ≤ (prev ++ ' ' :: a).length := by
            simp [List.length_append]
      · exact hall c (List.mem_cons_of_mem prev hc)
    · by_cases hp : prev.length < MIN_CHUNK_SIZE
      · intro h2 c hc
        simp only [mergeStep, if_neg ha, if_pos hp] at h2 hc
        have hall := h (by simpa using h2)
        exact absurd (hall prev (List.mem_cons_self prev rest)) (by omega)
      · intro h2 c hc
        simp only [mergeStep, if_neg ha, if_neg hp] at hc
        rcases List.mem_cons.mp hc with hc | hc
        · subst hc; omega
        · rcases List.mem_cons.mp hc with hc | hc
          · subst hc; omega
          · have hne : rest ≠ [] := List.ne_nil_of_mem hc
            have hall := h (by
              cases rest with
              | nil => exact absurd rfl hne
              | cons x xs => simp)
            exact hall c (List.mem_cons_of_mem prev hc)

theorem merge_fold_min (l : List Str) : ∀ r : List Str,
    (2 ≤ r.length → ∀ c ∈ r, MIN_CHUNK_SIZE ≤ c.length) →
    2 ≤ (l.foldl mergeStep r).length →
    ∀ c ∈ l.foldl mergeStep r, MIN_CHUNK_SIZE ≤ c.length := by
  induction l with
  | nil => intro r h; exact h
  | cons a rest ih =>
    intro r h
    exact ih (mergeStep r a) (mergeStep_min r a h)

theorem merge_small_chunks_min (l : List Str)
    (h2 : 2 ≤ (merge_small_chunks l).length) :
    ∀ c ∈ merge_small_chunks l, MIN_CHUNK_SIZE ≤ c.length := by
  intro c hc
  rw [merge_small_chunks, List.length_reverse] at h2
  rw [merge_small_chunks, List.mem_reverse] at hc
  exact merge_fold_min l [] (by intro hh; simp at hh) h2 c hc

/-- C3: whenever `chunk_text` returns two or more chunks, every chunk has
length at least `MIN_CHUNK_SIZE`; a shorter chunk can only occur when the
output is a single chunk. -/
theorem chunk_text_multi_min_size (text : Str)
    (h : 2 ≤ (chunk_text text).length) :
    ∀ c ∈ chunk_text text, MIN_CHUNK_SIZE ≤ c.length := by
  simp only [chunk_text] at h ⊢
  split_ifs at h ⊢ with h1 h2
  · simp at h
  · simp at h
  · exact merge_small_chunks_min _ h

theorem chunk_text_multi_min_size_witness :
    2 ≤ (chunk_text twoSentences).length ∧
    ∀ c ∈ chunk_text twoSentences, MIN_CHUNK_SIZE ≤ c.length :=
  ⟨by decide, chunk_text_multi_min_size twoSentences (by decide)⟩

/-- C2 counterexample: `badText` yields a single chunk of length 154,
exceeding `MAX_SENTENCE_LENGTH = 150`, even though that chunk is not a
single unsplittable clause — it still contains a clause boundary (it splits
into two clauses).  The small-sentence merge in `chunk_text` (and likewise
`_merge_small_chunks`) joins text onto a full-size chunk without
re-checking the maximum. -/
theorem chunk_text_max_exceeded_cex :
    chunk_text badText = [badText] ∧
    MAX_SENTENCE_LENGTH < badText.length ∧
    2 ≤ (strippedClauses badText).length :=
  ⟨by decide, by decide, by decide⟩

theorem clauseStep_inv (s : Str) (res : List Str) (cur a : Str)
    (ha : a ∈ reSplitAfterSep clauseSeps s)
    (hres : ∀ x ∈ res, x ∈ strippedClauses s ∨ x.length ≤ MAX_SENTENCE_LENGTH)
    (hcur : cur = [] ∨ cur ∈ strippedClauses s ∨
      cur.length ≤ MAX_SENTENCE_LENGTH) :
    (∀ x ∈ (clauseStep (res, cur) a).1,
      x ∈ strippedClauses s ∨ x.length ≤ MAX_SENTENCE_LENGTH) ∧
    ((clauseStep (res, cur) a).2 = [] ∨
      (clauseStep (res, cur) a).2 ∈ strippedClauses s ∨
      (clauseStep (res, cur) a).2.length ≤ MAX_SENTENCE_LENGTH) := by
  have hstrip : pyStrip a ≠ [] → pyStrip a ∈ strippedClauses s := by
    intro hne
    refine List.mem_filter.mpr ⟨List.mem_map_of_mem pyStrip ha, ?_⟩
    simp [List.isEmpty_iff, hne]
  simp only [clauseStep]
  split_ifs with h1 h2 h3
  · exact ⟨hres, hcur⟩
  · refine ⟨?_, Or.inr (Or.inl (hstrip h1))⟩
    intro x hx
    rcases List.mem_cons.mp hx with rfl | hx
    · exact hcur.resolve_left h2.1
    · exact hres x hx
  · refine ⟨hres, Or.inr (Or.inr ?_)⟩
    have hle : ¬ (MAX_SENTENCE_LENGTH < cur.length + (pyStrip a).length + 1) :=
      fun hlt => h2 ⟨h3, hlt⟩
    simp only [List.length_append, List.length_cons]
    omega
  · exact ⟨hres, Or.inr (Or.inl (hstrip h1))⟩

theorem clause_fold_inv (s : Str) (l : List Str) : ∀ (res : List Str) (cur : Str),
    (∀ x ∈ l, x ∈ reSplitAfterSep clauseSeps s) →
    (∀ x ∈ res, x ∈ strippedClauses s ∨ x.length ≤ MAX_SENTENCE_LENGTH) →
    (cur = [] ∨ cur ∈ strippedClauses s ∨
      cur.length ≤ MAX_SENTENCE_LENGTH) →
    ∀ x ∈ clauseFinish (l.foldl clauseStep (res, cur)),
      x ∈ strippedClauses s ∨ x.length ≤ MAX_SENTENCE_LENGTH := by
  induction l with
  | nil =>
    intro res cur _ hres hcur x hx
    simp only [clauseFinish, List.foldl_nil] at hx
    rw [List.mem_reverse] at hx
    by_cases hc : cur = []
    · rw [if_neg (by simp [hc])] at hx
      exact hres x hx
    · rw [if_pos hc] at hx
      rcases List.mem_cons.mp hx with rfl | hx
      · exact hcur.resolve_left hc
      · exact hres x hx
  | cons a rest ih =>
    intro res cur hl hres hcur
    simp only [List.foldl_cons]
    have hstep := clauseStep_inv s res cur a (hl a (List.mem_cons_self a rest))
      hres hcur
    exact ih (clauseStep (res, cur) a).1 (clauseStep (res, cur) a).2
      (fun x hx => hl x (List.mem_cons_of_mem a hx)) hstep.1 hstep.2

/-- C2 (amended): in the clause-splitting stage (`_split_on_clauses`), no
produced chunk exceeds `MAX_SENTENCE_LENGTH` unless it is a single clause
of the sentence, which alone already exceeds that length and cannot be
split further at a clause boundary; the subsequent small-chunk merging in
`chunk_text` and `_merge_small_chunks`, however, may produce chunks above
the maximum (see the counterexample). -/
theorem split_on_clauses_oversize_single_clause (s c : Str)
    (hc : c ∈ split_on_clauses s) (hlen : MAX_SENTENCE_LENGTH < c.length) :
    c ∈ strippedClauses s := by
  rw [split_on_clauses] at hc
  have hres := clause_fold_inv s (reSplitAfterSep clauseSeps s) [] []
    (fun x hx => hx) (by simp) (Or.inl rfl)
  rcases hres c hc with h | h
  · exact h
  · omega

theorem split_on_clauses_oversize_single_clause_witness :
    longClause ∈ split_on_clauses longClause ∧
    MAX_SENTENCE_LENGTH < longClause.length ∧
    longClause ∈ strippedClauses longClause :=
  ⟨by decide, by decide,
   split_on_clauses_oversize_single_clause longClause longClause
     (by decide) (by decide)⟩

theorem tokens_ws_cons (c : Char) (s : Str) (h : isWs c = true) :
    tokens (c :: s) = tokens s := by
  simp [tokens, tokensGo, h]

theorem tokensGo_append_stop (d : Char) (h : isWs d = true) :
    ∀ (x cur : Str), tokensGo cur (x ++ [d]) = tokensGo cur x := by
  intro x
  induction x with
  | nil =>
    intro cur
    by_cases hcur : cur = []
    · simp [tokensGo, h, hcur]
    · simp [tokensGo, h, hcur]
  | cons a x2 ih =>
    intro cur
    by_cases haw : isWs a
    · by_cases hcur : cur = []
      · simp [tokensGo, haw, hcur, ih]
      · simp [tokensGo, haw, hcur, ih]
    · simp [tokensGo, haw, ih]

theorem tokensGo_append_ws_split (d : Char) (h : isWs d = true) (z : Str) :
    ∀ (x cur : Str),
    tokensGo cur (x ++ d :: z) = tokensGo cur (x ++ [d]) ++ tokensGo [] z := by
  intro x
  induction x with
  | nil =>
    intro cur
    by_cases hcur : cur = []
    · simp [tokensGo, h, hcur]
    · simp [tokensGo, h, hcur]
  | cons a x2 ih =>
    intro cur
    by_cases haw : isWs a
    · by_cases hcur : cur = []
      · simp [tokensGo, haw, hcur, ih]
      · simp [tokensGo, haw, hcur, ih]
    · simp [tokensGo, haw, ih]

theorem tokens_append_ws (x z : Str) (d : Char) (h : isWs d = true) :
    tokens (x ++ d :: z) = tokens x ++ tokens z := by
  unfold tokens
  rw [tokensGo_append_ws_split d h z x [], tokensGo_append_stop d h x []]

theorem tokens_glue (a b : Str) : tokens (a ++ ' ' :: b) = tokens a ++ tokens b :=
  tokens_append_ws a b ' ' rfl

theorem tokens_all_ws (w : Str) (h : ∀ c ∈ w, isWs c) : tokens w = [] := by
  induction w with
  | nil => rfl
  | cons c cs ih =>
    rw [tokens_ws_cons c cs (h c (List.mem_cons_self c cs))]
    exact ih (fun x hx => h x (List.mem_cons_of_mem c hx))

theorem tokens_append_all_ws (a w : Str) (h : ∀ c ∈ w, isWs c) :
    tokens (a ++ w) = tokens a := by
  cases w with
  | nil => rw [List.append_nil]
  | cons d w2 =>
    rw [tokens_append_ws a w2 d (h d (List.mem_cons_self d w2)),
      tokens_all_ws w2 (fun x hx => h x (List.mem_cons_of_mem d hx)),
      List.append_nil]

theorem tokens_dropWhile (s : Str) : tokens (s.dropWhile isWs) = tokens s := by
  induction s with
  | nil => rfl
  | cons c cs ih =>
    by_cases hc : isWs c
    · rw [List.dropWhile_cons_of_pos hc, ih, tokens_ws_cons c cs hc]
    · rw [List.dropWhile_cons_of_neg hc]

theorem tokens_pyStrip (s : Str) : tokens (pyStrip s) = tokens s := by
  unfold pyStrip
  rw [← tokens_dropWhile s]
  have h2 : s.dropWhile isWs =
      ((s.dropWhile isWs).reverse.dropWhile isWs).reverse ++
        ((s.dropWhile isWs).reverse.takeWhile isWs).reverse := by
    conv_lhs =>
      rw [← List.reverse_reverse (s.dropWhile isWs),
        ← List.takeWhile_append_dropWhile (p := isWs)
          (l := (s.dropWhile isWs).reverse)]
    rw [List.reverse_append]
  conv_rhs => rw [h2]
  rw [tokens_append_all_ws]
  intro c hc
  rw [List.mem_reverse] at hc
  exact List.mem_takeWhile_imp hc

theorem tokensFlat_append (a b : List Str) :
    tokensFlat (a ++ b) = tokensFlat a ++ tokensFlat b := by
  simp [tokensFlat]

theorem tokensFlat_cons (x : Str) (l : List Str) :
    tokensFlat (x :: l) = tokens x ++ tokensFlat l := by
  simp [tokensFlat]

theorem tokensFlat_reverse_cons (x : Str) (r : List Str) :
    tokensFlat ((x :: r).reverse) = tokensFlat r.reverse ++ tokens x := by
  simp [tokensFlat]

theorem tokensFlat_splitGo (seps : List Char) (s : Str) : ∀ (sk : Bool) (acc : Str),
    tokensFlat (splitGo seps sk acc s) =
      if sk then tokens s else tokens (acc.reverse ++ s) := by
  induction s with
  | nil =>
    intro sk acc
    cases sk
    · simp [splitGo, tokensFlat]
    · simp [splitGo, tokensFlat, tokens, tokensGo]
  | cons c cs ih =>
    intro sk acc
    cases sk with
    | true =>
      by_cases hw : isWs c
      · rw [show splitGo seps true acc (c :: cs) = splitGo seps true acc cs from
          by simp [splitGo, hw]]
        rw [ih true acc, tokens_ws_cons c cs hw]
        simp
      · rw [show splitGo seps true acc (c :: cs) = splitGo seps false [c] cs from
          by simp [splitGo, hw]]
        rw [ih false [c]]
        simp
    | false =>
      by_cases hcond : (isWs c && headSep seps acc) = true
      · rw [show splitGo seps false acc (c :: cs) =
            acc.reverse :: splitGo seps true [] cs from by simp [splitGo, hcond]]
        rw [tokensFlat_cons, ih true []]
        have hw : isWs c = true := (Bool.and_eq_true _ _ |>.mp hcond).1
        simp [tokens_append_ws acc.reverse cs c hw]
      · rw [show splitGo seps false acc (c :: cs) =
            splitGo seps false (c :: acc) cs from by simp [splitGo, hcond]]
        rw [ih false (c :: acc)]
        simp [List.reverse_cons, List.append_assoc]

theorem tokensFlat_reSplit (seps : List Char) (s : Str) :
    tokensFlat (reSplitAfterSep seps s) = tokens s := by
  rw [reSplitAfterSep, tokensFlat_splitGo]
  simp

theorem tokens_joinSp (l : List Str) : tokens (joinSp l) = tokensFlat l := by
  induction l with
  | nil => rfl
  | cons p ps ih =>
    cases ps with
    | nil => simp [joinSp, tokensFlat]
    | cons q ps2 =>
      have hj : joinSp (p :: q :: ps2) = p ++ ' ' :: joinSp (q :: ps2) := rfl
      rw [hj, tokens_glue, ih]
      simp [tokensFlat]

theorem clause_fold_tokens (l : List Str) : ∀ (res : List Str) (cur : Str),
    tokensFlat (clauseFinish (l.foldl clauseStep (res, cur))) =
      tokensFlat res.reverse ++ tokens cur ++ tokensFlat l := by
  induction l with
  | nil =>
    intro res cur
    simp only [List.foldl_nil, clauseFinish]
    by_cases hc : cur = []
    · rw [if_neg (by simp [hc])]
      subst hc
      simp [tokensFlat, tokens, tokensGo]
    · rw [if_pos hc, tokensFlat_reverse_cons]
      simp [tokensFlat]
  | cons a rest ih =>
    intro res cur
    simp only [List.foldl_cons]
    rw [ih]
    have key : tokensFlat ((clauseStep (res, cur) a).1).reverse ++
        tokens (clauseStep (res, cur) a).2 =
        tokensFlat res.reverse ++ (tokens cur ++ tokens a) := by
      simp only [clauseStep]
      split_ifs with h1 h2 h3
      · have ha : tokens a = [] := by rw [← tokens_pyStrip a, h1]; rfl
        simp [ha]
      · rw [tokensFlat_reverse_cons, tokens_pyStrip]
        simp [List.append_assoc]
      · rw [tokens_glue, tokens_pyStrip]
      · have hcur : cur = [] := by
          by_contra hne
          exact h3 hne
        subst hcur
        rw [tokens_pyStrip]
        simp [tokens, tokensGo]
    calc tokensFlat ((clauseStep (res, cur) a).1).reverse ++
          tokens (clauseStep (res, cur) a).2 ++ tokensFlat rest
        = (tokensFlat res.reverse ++ (tokens cur ++ tokens a)) ++
            tokensFlat rest := by rw [key]
      _ = tokensFlat res.reverse ++ tokens cur ++ tokensFlat (a :: rest) := by
          simp [tokensFlat, List.append_assoc]

theorem split_on_clauses_tokens (s : Str) :
    tokensFlat (split_on_clauses s) = tokens s := by
  rw [split_on_clauses, clause_fold_tokens]
  rw [tokensFlat_reSplit]
  simp [tokensFlat, tokens, tokensGo]

theorem sentence_fold_tokens (l : List Str) : ∀ chunks : List Str,
    tokensFlat ((l.foldl sentenceStep chunks).reverse) =
      tokensFlat chunks.reverse ++ tokensFlat l := by
  induction l with
  | nil =>
    intro chunks
    simp [tokensFlat]
  | cons a rest ih =>
    intro chunks
    simp only [List.foldl_cons]
    rw [ih]
    have key : tokensFlat (sentenceStep chunks a).reverse =
        tokensFlat chunks.reverse ++ tokens a := by
      cases chunks with
      | nil =>
        simp only [sentenceStep]
        by_cases h1 : pyStrip a = []
        · rw [if_pos h1]
          have ha : tokens a = [] := by rw [← tokens_pyStrip a, h1]; rfl
          simp [ha]
        · rw [if_neg h1]
          by_cases h2 : MAX_SENTENCE_LENGTH < (pyStrip a).length
          · rw [if_pos h2, List.append_nil, List.reverse_reverse,
              split_on_clauses_tokens, tokens_pyStrip]
            simp [tokensFlat]
          · rw [if_neg h2]
            simp [tokensFlat, tokens_pyStrip]
      | cons prev rest2 =>
        simp only [sentenceStep]
        by_cases h1 : pyStrip a = []
        · rw [if_pos h1]
          have ha : tokens a = [] := by rw [← tokens_pyStrip a, h1]; rfl
          simp [ha]
        · rw [if_neg h1]
          by_cases h2 : MAX_SENTENCE_LENGTH < (pyStrip a).length
          · rw [if_pos h2, List.reverse_append, List.reverse_reverse,
              tokensFlat_append, split_on_clauses_tokens, tokens_pyStrip]
          · rw [if_neg h2]
            by_cases h3 : (pyStrip a).length < MIN_CHUNK_SIZE
            · rw [if_pos h3, tokensFlat_reverse_cons, tokens_glue,
                tokens_pyStrip, tokensFlat_reverse_cons]
              simp [List.append_assoc]
            · rw [if_neg h3,
                show ((pyStrip a :: prev :: rest2).reverse : List Str) =
                  ((prev :: rest2).reverse ++ [pyStrip a]) from by simp,
                tokensFlat_append]
              simp [tokensFlat, tokens_pyStrip]
    calc tokensFlat (sentenceStep chunks a).reverse ++ tokensFlat rest
        = (tokensFlat chunks.reverse ++ tokens a) ++ tokensFlat rest := by
          rw [key]
      _ = tokensFlat chunks.reverse ++ tokensFlat (a :: rest) := by
          simp [tokensFlat, List.append_assoc]

theorem merge_fold_tokens (l : List Str) : ∀ r : List Str,
    tokensFlat ((l.foldl mergeStep r).reverse) =
      tokensFlat r.reverse ++ tokensFlat l := by
  induction l with
  | nil =>
    intro r
    simp [tokensFlat]
  | cons a rest ih =>
    intro r
    simp only [List.foldl_cons]
    rw [ih]
    have key : tokensFlat (mergeStep r a).reverse =
        tokensFlat r.reverse ++ tokens a := by
      cases r with
      | nil => simp [mergeStep, tokensFlat]
      | cons prev rest2 =>
        simp only [mergeStep]
        split_ifs with h1 h2
        · rw [tokensFlat_reverse_cons, tokens_glue, tokensFlat_reverse_cons,
            List.append_assoc]
        · rw [tokensFlat_reverse_cons, tokens_glue, tokensFlat_reverse_cons,
            List.append_assoc]
        · rw [tokensFlat_reverse_cons, tokensFlat_reverse_cons]
    rw [key, tokensFlat_cons, List.append_assoc]

theorem merge_small_chunks_tokens (l : List Str) :
    tokensFlat (merge_small_chunks l) = tokensFlat l := by
  rw [merge_small_chunks, merge_fold_tokens]
  simp [tokensFlat]

theorem chunk_text_tokensFlat (text : Str) :
    tokensFlat (chunk_text text) = tokens text := by
  simp only [chunk_text]
  split_ifs with h1 h2
  · have : tokens text = [] := by rw [← tokens_pyStrip text, h1]; rfl
    simp [tokensFlat, this]
  · simp [tokensFlat, tokens_pyStrip]
  · rw [merge_small_chunks_tokens, sentence_fold_tokens, tokensFlat_reSplit,
      tokens_pyStrip]
    simp [tokensFlat]

/-- C4: concatenating the chunks returned by `chunk_text`, in order and
joined by whitespace, has exactly the whitespace-separated tokens of the
original input: no token is lost, duplicated, or reordered. -/
theorem chunk_text_preserves_tokens (text : Str) :
    tokens (joinSp (chunk_text text)) = tokens text := by
  rw [tokens_joinSp, chunk_text_tokensFlat]

end Sidecar
